import Mathlib

/-!
Verification of the embedded-agent-bridge example firmware against its
natural-language specification.

C strings are modelled as lists of byte values (`List Nat`); machine
integers are `Nat`/`Int` with explicit `% 2^32` or `% 2^64` where the C
code relies on unsigned wraparound.  Each definition below embeds the
C function of the same name from the repository's sources.
-/

/- ===================================================================
   Decimal rendering (snprintf "%d")
   =================================================================== -/

/-- Little-endian decimal digits of `n`, with explicit fuel so the kernel
can evaluate it (`natDigitsRevAux n n` lists the digits of `n`). -/
def natDigitsRevAux : Nat → Nat → List Nat
  | 0, _ => []
  | fuel + 1, n => if n = 0 then [] else n % 10 :: natDigitsRevAux fuel (n / 10)

/-- Little-endian decimal digits of `n` (empty for 0). -/
def natDigitsRev (n : Nat) : List Nat := natDigitsRevAux n n

/-- The ASCII bytes snprintf's `%d` prints for a nonnegative value. -/
def decNat (n : Nat) : List Nat :=
  if n = 0 then [48] else (natDigitsRev n).reverse.map (fun d => d + 48)

/-- The ASCII bytes snprintf's `%d` prints for a signed value. -/
def decInt (i : Int) : List Nat :=
  if i < 0 then 45 :: decNat i.natAbs else decNat i.natAbs

/- ===================================================================
   C standard-library string scanning used by the JSON getters
   =================================================================== -/

/-- `strstr`: the first suffix of `s` that starts with `pat`
(`none` when `pat` occurs nowhere in `s`). -/
def findSub (pat : List Nat) : List Nat → Option (List Nat)
  | [] => if pat.isPrefixOf ([] : List Nat) then some [] else none
  | c :: t => if pat.isPrefixOf (c :: t) then some (c :: t) else findSub pat t

/-- `strstr s pat ≠ NULL`: `pat` occurs somewhere in `s`. -/
def hasSub (s pat : List Nat) : Bool := (findSub pat s).isSome

/-- The digit-run accumulator shared by `atoi` and `json_get_fixed1`:
consume leading ASCII digits, accumulating `acc * 10 + digit`. -/
def parseDigits : List Nat → Nat → Nat × List Nat
  | [], acc => (acc, [])
  | c :: t, acc =>
    if 48 ≤ c ∧ c ≤ 57 then parseDigits t (acc * 10 + (c - 48)) else (acc, c :: t)

/-- `isspace` bytes skipped by `atoi`. -/
def isSpaceByte (c : Nat) : Prop := c = 32 ∨ (9 ≤ c ∧ c ≤ 13)

instance (c : Nat) : Decidable (isSpaceByte c) := by
  unfold isSpaceByte; infer_instance

/-- Leading-whitespace skip of `atoi`. -/
def skipWs : List Nat → List Nat
  | [] => []
  | c :: t => if isSpaceByte c then skipWs t else c :: t

/-- C `atoi`: optional sign after whitespace, then a digit run. -/
def atoiB (s : List Nat) : Int :=
  match skipWs s with
  | 43 :: t => ((parseDigits t 0).1 : Int)
  | 45 :: t => -((parseDigits t 0).1 : Int)
  | t => ((parseDigits t 0).1 : Int)

/- ===================================================================
   JSON field getters (nrf5340-ble-hub/src/main.c, esp32c6-ble-gateway)
   =================================================================== -/

/-- The search string `"\"%s\":"` both getters build around a key. -/
def searchPat (key : List Nat) : List Nat := 34 :: key ++ [34, 58]

/-- `json_get_int`: find `"key":` and `atoi` what follows, else `fallback`. -/
def json_get_int (json key : List Nat) (fallback : Int) : Int :=
  match findSub (searchPat key) json with
  | none => fallback
  | some s => atoiB (s.drop (searchPat key).length)

/-- The numeric part of `json_get_fixed1` (the code after `p += strlen(search)`):
optional `-`, a digit run, and an optional `.` followed by one digit,
returning `sign * (integer * 10 + frac)`. -/
def fracOf : List Nat → Nat
  | 46 :: d :: _ => if 48 ≤ d ∧ d ≤ 57 then d - 48 else 0
  | _ => 0

def parseFixed1 (p : List Nat) : Int :=
  let sign : Int := if p.head? = some 45 then -1 else 1
  let p1 := if p.head? = some 45 then p.tail else p
  let r := parseDigits p1 0
  sign * ((r.1 : Int) * 10 + (fracOf r.2 : Int))

/-- `json_get_fixed1`: find `"key":` and parse what follows as a one-decimal
fixed-point value, else `fallback`. -/
def json_get_fixed1 (json key : List Nat) (fallback : Int) : Int :=
  match findSub (searchPat key) json with
  | none => fallback
  | some s => parseFixed1 (s.drop (searchPat key).length)

/- ===================================================================
   STM32L4 sensor node (stm32l4-sensor-node/src/main.c)
   =================================================================== -/

/-- `"temp_c"` as bytes. -/
def tempKey : List Nat := [116, 101, 109, 112, 95, 99]

/-- `"vref_mv"` as bytes. -/
def vrefKey : List Nat := [118, 114, 101, 102, 95, 109, 118]

/-- The literal `{"node":"stm32",` opening of the sensor node's JSON line. -/
def nodeHdr : List Nat :=
  [123, 34, 110, 111, 100, 101, 34, 58, 34, 115, 116, 109, 51, 50, 34, 44]

/-- The `,` before the `"vref_mv":` field of the sensor node's JSON line. -/
def midVref : List Nat := 44 :: searchPat vrefKey

/-- The second `%d` argument of the sensor's two-part `%d.%d` format:
`temp_c_x10 >= 0 ? temp_c_x10 % 10 : -(temp_c_x10 % 10)` (C `%` = `Int.tmod`). -/
def fracDigit (t : Int) : Nat :=
  (if 0 ≤ t then Int.tmod t 10 else -(Int.tmod t 10)).toNat

/-- The JSON line body the sensor node formats with
`snprintf(buf, 128, "{\"node\":\"stm32\",\"temp_c\":%d.%d,\"vref_mv\":%d}\n", t/10, ..., v)`,
without the trailing newline (the hub's line assembler strips it). -/
def sensorJsonBody (t v : Int) : List Nat :=
  nodeHdr ++ searchPat tempKey ++ decInt (Int.tdiv t 10) ++ [46] ++ decNat (fracDigit t)
    ++ midVref ++ decInt v ++ [125]

/-- The full line as sent on the data UART (newline-terminated). -/
def sensorJsonLine (t v : Int) : List Nat := sensorJsonBody t v ++ [10]

/- ===================================================================
   Helper lemmas: decimal rendering and digit parsing
   =================================================================== -/

lemma natDigitsRevAux_eq (fuel : Nat) : ∀ n, n ≤ fuel → natDigitsRevAux fuel n = Nat.digits 10 n := by
  induction fuel with
  | zero =>
    intro n h
    have : n = 0 := by omega
    subst this
    simp [natDigitsRevAux]
  | succ f ih =>
    intro n h
    by_cases hn : n = 0
    · subst hn; simp [natDigitsRevAux]
    · rw [natDigitsRevAux, if_neg hn,
        Nat.digits_def' (by norm_num : (1:ℕ) < 10) (Nat.pos_of_ne_zero hn),
        ih (n / 10) (by have := Nat.div_lt_self (Nat.pos_of_ne_zero hn) (by norm_num : 1 < 10); omega)]

lemma decNat_eq (n : Nat) :
    decNat n = if n = 0 then [48] else (Nat.digits 10 n).reverse.map (fun d => d + 48) := by
  unfold decNat natDigitsRev
  rw [natDigitsRevAux_eq n n le_rfl]

lemma decNat_ne_nil (n : Nat) : decNat n ≠ [] := by
  rw [decNat_eq]
  by_cases hn : n = 0
  · simp [hn]
  · simp [hn, Nat.digits_ne_nil_iff_ne_zero.mpr hn]

lemma decNat_mem (n c : Nat) (h : c ∈ decNat n) : 48 ≤ c ∧ c ≤ 57 := by
  rw [decNat_eq] at h
  by_cases hn : n = 0
  · simp [hn] at h; omega
  · rw [if_neg hn] at h
    obtain ⟨d, hd, rfl⟩ := List.mem_map.mp h
    have : d < 10 := Nat.digits_lt_base (by norm_num) (List.mem_reverse.mp hd)
    omega

lemma decNat_small (d : Nat) (h : d ≤ 9) : decNat d = [48 + d] := by
  interval_cases d <;> rfl

/-- Shape of a list whose head, if any, is not an ASCII digit. -/
def noDigitHead (l : List Nat) : Prop :=
  ∀ c, l.head? = some c → ¬(48 ≤ c ∧ c ≤ 57)

lemma parseDigits_stop (l : List Nat) (acc : Nat) (h : noDigitHead l) :
    parseDigits l acc = (acc, l) := by
  cases l with
  | nil => rfl
  | cons c t => simp [parseDigits, h c rfl]

lemma parseDigits_append (ds : List Nat) : ∀ (acc : Nat) (rest : List Nat),
    (∀ d ∈ ds, d < 10) → noDigitHead rest →
    parseDigits (ds.map (fun d => d + 48) ++ rest) acc
      = (ds.foldl (fun a d => a * 10 + d) acc, rest) := by
  induction ds with
  | nil =>
    intro acc rest _ hr
    simpa using parseDigits_stop rest acc hr
  | cons d t ih =>
    intro acc rest hds hr
    have hd : d < 10 := hds d (by simp)
    simp only [List.map_cons, List.cons_append, parseDigits]
    rw [if_pos (by omega : 48 ≤ d + 48 ∧ d + 48 ≤ 57),
      show d + 48 - 48 = d by omega]
    simp only [List.append_eq]
    rw [ih _ rest (fun x hx => hds x (by simp [hx])) hr]
    simp

lemma foldr_mul10 (L : List Nat) :
    L.foldr (fun d a => a * 10 + d) 0 = Nat.ofDigits 10 L := by
  induction L with
  | nil => rfl
  | cons d t ih => simp [Nat.ofDigits, ih]; ring

lemma foldl_digits_rev (n : Nat) :
    ((Nat.digits 10 n).reverse).foldl (fun a d => a * 10 + d) 0 = n := by
  rw [List.foldl_reverse, foldr_mul10, Nat.ofDigits_digits]

lemma parseDigits_decNat (n : Nat) (rest : List Nat) (hr : noDigitHead rest) :
    parseDigits (decNat n ++ rest) 0 = (n, rest) := by
  rw [decNat_eq]
  by_cases hn : n = 0
  · subst hn
    simp only [if_pos rfl, List.cons_append, List.nil_append, parseDigits]
    rw [if_pos (by omega : 48 ≤ 48 ∧ 48 ≤ 57)]
    simpa using parseDigits_stop rest 0 hr
  · rw [if_neg hn,
      parseDigits_append _ 0 rest
        (fun d hd => Nat.digits_lt_base (by norm_num) (List.mem_reverse.mp hd)) hr,
      foldl_digits_rev]

/- ===================================================================
   Helper lemmas: strstr
   =================================================================== -/

lemma isPrefixOf_append_self (p r : List Nat) : p.isPrefixOf (p ++ r) = true := by
  induction p with
  | nil => simp [List.isPrefixOf]
  | cons a t ih => simp [List.isPrefixOf, ih]

lemma findSub_cons_ne (pat : List Nat) (c : Nat) (t : List Nat)
    (h : pat.isPrefixOf (c :: t) = false) : findSub pat (c :: t) = findSub pat t := by
  simp [findSub, h]

lemma findSub_cons_eq (pat : List Nat) (c : Nat) (t : List Nat)
    (h : pat.isPrefixOf (c :: t) = true) : findSub pat (c :: t) = some (c :: t) := by
  simp [findSub, h]

/-- `strstr` finds the `"temp_c":` key exactly at its position in the
sensor node's JSON line: no earlier offset of `{"node":"stm32",` matches. -/
lemma findSub_tempKey (tail : List Nat) :
    findSub (searchPat tempKey) (nodeHdr ++ (searchPat tempKey ++ tail))
      = some (searchPat tempKey ++ tail) := by
  simp only [nodeHdr, searchPat, tempKey, List.cons_append, List.nil_append]
  iterate 16 rw [findSub_cons_ne _ _ _ (by simp [List.isPrefixOf])]
  exact findSub_cons_eq _ _ _ (isPrefixOf_append_self (34 :: (116 :: 101 :: 109 :: 112 :: 95 :: 99 :: (34 :: 58 :: []))) tail)

lemma fracOf_digit (f : Nat) (hf : f ≤ 9) (rest : List Nat) :
    fracOf (46 :: (48 + f) :: rest) = f := by
  have : 48 ≤ 48 + f ∧ 48 + f ≤ 57 := by omega
  simp [fracOf, this]

lemma parseFixed1_pos (m f : Nat) (hf : f ≤ 9) (rest : List Nat) :
    parseFixed1 (decNat m ++ 46 :: (48 + f) :: rest) = ((m * 10 + f : Nat) : Int) := by
  obtain ⟨c, cs, hc⟩ := List.exists_cons_of_ne_nil (decNat_ne_nil m)
  have hcd := decNat_mem m c (by rw [hc]; exact List.mem_cons_self c cs)
  have hne : ¬((decNat m ++ 46 :: (48 + f) :: rest).head? = some 45) := by
    rw [hc]
    intro h
    injection h with h
    omega
  have hparse : parseDigits (decNat m ++ 46 :: (48 + f) :: rest) 0
      = (m, 46 :: (48 + f) :: rest) :=
    parseDigits_decNat m _ (fun x hx => by simp at hx; omega)
  simp only [parseFixed1, if_neg hne, hparse, fracOf_digit f hf rest]
  push_cast
  ring

lemma parseFixed1_neg (m f : Nat) (hf : f ≤ 9) (rest : List Nat) :
    parseFixed1 (45 :: (decNat m ++ 46 :: (48 + f) :: rest)) = -((m * 10 + f : Nat) : Int) := by
  have hparse : parseDigits (decNat m ++ 46 :: (48 + f) :: rest) 0
      = (m, 46 :: (48 + f) :: rest) :=
    parseDigits_decNat m _ (fun x hx => by simp at hx; omega)
  simp only [parseFixed1, List.head?_cons, List.tail_cons, if_pos rfl, if_true]
  rw [hparse]
  simp only [fracOf_digit f hf rest]
  push_cast
  ring

lemma drop_searchPat_tempKey (tail : List Nat) :
    (searchPat tempKey ++ tail).drop (searchPat tempKey).length = tail :=
  List.drop_left _ _

/-- C1 (amended): for every `int32` temperature value `t = temp_c_x10` that is
nonnegative or at most `-10`, the JSON line the STM32L4 sensor node formats via
its two-part `%d.%d` snprintf is parsed back by the hub's `json_get_fixed1` to
exactly `t` (any `v` and any fallback).  The exclusion of `-9 ≤ t ≤ -1` is
forced: there `t / 10 = 0` and the sign is lost (see the counterexample). -/
theorem sensor_temp_roundtrip (t v fb : Int)
    (hrange : -(2 ^ 31) ≤ t ∧ t < 2 ^ 31) (hok : 0 ≤ t ∨ t ≤ -10) :
    json_get_fixed1 (sensorJsonBody t v) tempKey fb = t := by
  rcases hok with hpos | hneg
  · -- nonnegative temperatures
    have ht : ((t.toNat : Int)) = t := Int.toNat_of_nonneg hpos
    set m : Nat := t.toNat with hm
    have hdiv : Int.tdiv t 10 = ((m / 10 : Nat) : Int) := by
      rw [← ht]
      rfl
    have htmod : Int.tmod t 10 = ((m % 10 : Nat) : Int) := by
      rw [← ht]
      rfl
    have hfrac : fracDigit t = m % 10 := by
      unfold fracDigit
      rw [if_pos hpos, htmod]
      omega
    have hip : decInt (Int.tdiv t 10) = decNat (m / 10) := by
      unfold decInt
      rw [hdiv, if_neg (by omega), Int.natAbs_ofNat]
    have hbody : sensorJsonBody t v
        = nodeHdr ++ (searchPat tempKey
            ++ (decNat (m / 10) ++ 46 :: (48 + m % 10) :: (midVref ++ (decInt v ++ [125])))) := by
      unfold sensorJsonBody
      rw [hip, hfrac, decNat_small (m % 10) (by omega)]
      simp [List.append_assoc]
    rw [hbody]
    simp only [json_get_fixed1, findSub_tempKey, drop_searchPat_tempKey]
    rw [parseFixed1_pos (m / 10) (m % 10) (by omega) _]
    rw [← ht]
    push_cast
    omega
  · -- temperatures at most -1.0 degrees
    have hneg0 : t ≤ 0 := by omega
    have ht : ((t.natAbs : Int)) = -t := by omega
    set a : Nat := t.natAbs with hma
    have ha : 10 ≤ a := by omega
    have hdiv : Int.tdiv t 10 = -((a / 10 : Nat) : Int) := by
      have h1 : t = -((a : Int)) := by omega
      rw [h1, Int.neg_tdiv]
      norm_num
      rfl
    have htmod : -(Int.tmod t 10) = ((a % 10 : Nat) : Int) := by
      have h := Int.tdiv_add_tmod t 10
      rw [hdiv] at h
      have h2 : (10 : Int) * (a / 10 : Nat) + (a % 10 : Nat) = (a : Int) := by
        push_cast
        omega
      omega
    have hfrac : fracDigit t = a % 10 := by
      unfold fracDigit
      rw [if_neg (by omega), htmod]
      omega
    have hip : decInt (Int.tdiv t 10) = 45 :: decNat (a / 10) := by
      unfold decInt
      rw [hdiv, if_pos (by push_cast; omega)]
      rw [Int.natAbs_neg, Int.natAbs_ofNat]
    have hbody : sensorJsonBody t v
        = nodeHdr ++ (searchPat tempKey
            ++ (45 :: (decNat (a / 10) ++ 46 :: (48 + a % 10) :: (midVref ++ (decInt v ++ [125]))))) := by
      unfold sensorJsonBody
      rw [hip, hfrac, decNat_small (a % 10) (by omega)]
      simp [List.append_assoc]
    rw [hbody]
    simp only [json_get_fixed1, findSub_tempKey, drop_searchPat_tempKey]
    rw [parseFixed1_neg (a / 10) (a % 10) (by omega) _]
    push_cast
    omega

/-- C1 witness: at `t = 245` (24.5 °C) and `v = 3301` the formatted line
parses back to exactly 245. -/
theorem sensor_temp_roundtrip_witness :
    json_get_fixed1 (sensorJsonBody 245 3301) tempKey 0 = 245 :=
  sensor_temp_roundtrip 245 3301 0 (by constructor <;> decide) (Or.inl (by decide))

/-- C1 counterexample: at `t = -5` (-0.5 °C) the sensor prints `0.5` (the sign
of the zero integer part is lost by `%d.%d`), so the hub parses back `5 ≠ -5`:
the round trip claimed for every `t` fails. -/
theorem sensor_temp_roundtrip_counterexample :
    json_get_fixed1 (sensorJsonBody (-5) 3301) tempKey 0 = 5 ∧ ((5 : Int) = -5 → False) := by
  constructor
  · decide
  · decide

/- ===================================================================
   Helper lemmas: substring occurrence
   =================================================================== -/

lemma isPrefixOf_iff (p : List Nat) : ∀ l, p.isPrefixOf l = true ↔ ∃ r, l = p ++ r := by
  induction p with
  | nil =>
    intro l
    simp [List.isPrefixOf]
  | cons a t ih =>
    intro l
    cases l with
    | nil => simp [List.isPrefixOf]
    | cons b bs =>
      simp only [List.isPrefixOf, Bool.and_eq_true, beq_iff_eq, ih bs, List.cons_append]
      constructor
      · rintro ⟨rfl, r, rfl⟩
        exact ⟨r, rfl⟩
      · rintro ⟨r, h⟩
        injection h with h1 h2
        exact ⟨h1.symm, r, h2⟩

lemma hasSub_iff (p : List Nat) : ∀ l, hasSub l p = true ↔ ∃ ax bx, l = ax ++ p ++ bx := by
  intro l
  induction l with
  | nil =>
    cases p with
    | nil =>
      constructor
      · intro _
        exact ⟨[], [], rfl⟩
      · intro _
        decide
    | cons x xs =>
      constructor
      · intro h
        exfalso
        have hpf : (x :: xs).isPrefixOf ([] : List Nat) = false := rfl
        unfold hasSub at h
        rw [show findSub (x :: xs) ([] : List Nat)
            = if (x :: xs).isPrefixOf ([] : List Nat) then some [] else none from rfl, hpf] at h
        simp at h
      · rintro ⟨ax, bx, hab⟩
        exfalso
        cases ax <;> simp at hab
  | cons c t ih =>
    unfold hasSub at ih ⊢
    rw [show findSub p (c :: t) = if p.isPrefixOf (c :: t) then some (c :: t) else findSub p t
      from rfl]
    by_cases hp : p.isPrefixOf (c :: t) = true
    · obtain ⟨r, hr⟩ := (isPrefixOf_iff p (c :: t)).mp hp
      simp [hp]
      exact ⟨[], r, by simpa using hr⟩
    · simp [hp, ih]
      constructor
      · rintro ⟨ax, bx, rfl⟩
        exact ⟨c :: ax, bx, rfl⟩
      · rintro ⟨ax, bx, h⟩
        cases ax with
        | nil =>
          exfalso
          exact hp ((isPrefixOf_iff p (c :: t)).mpr ⟨bx, by simpa using h⟩)
        | cons x xs =>
          injection h with h1 h2
          exact ⟨xs, bx, h2⟩

lemma hasSub_take (l p : List Nat) (n : Nat) (h : hasSub (l.take n) p = true) :
    hasSub l p = true := by
  obtain ⟨ax, bx, he⟩ := (hasSub_iff p _).mp h
  refine (hasSub_iff p l).mpr ⟨ax, bx ++ l.drop n, ?_⟩
  conv_lhs => rw [← List.take_append_drop n l, he]
  simp [List.append_assoc]

lemma hasSub_of_searchPat (l k : List Nat) (h : hasSub l (searchPat k) = true) :
    hasSub l k = true := by
  obtain ⟨ax, bx, he⟩ := (hasSub_iff _ _).mp h
  refine (hasSub_iff k l).mpr ⟨ax ++ [34], [34, 58] ++ bx, ?_⟩
  rw [he]
  simp [searchPat, List.append_assoc]

lemma json_get_int_no_key (json k : List Nat) (fb : Int)
    (h : hasSub json (searchPat k) = false) : json_get_int json k fb = fb := by
  unfold hasSub at h
  unfold json_get_int
  cases hf : findSub (searchPat k) json with
  | none => rfl
  | some s => rw [hf] at h; simp at h

/- ===================================================================
   nRF5340 BLE hub: shared sensor state and its two writers
   (nrf5340-ble-hub/src/main.c)
   =================================================================== -/

/-- The hub's six aggregated integer fields (guarded by `data_mutex`). -/
structure HubData where
  stm32_temp_x10 : Int
  stm32_vref : Int
  esp32_heap : Int
  esp32_uptime : Int
  nxp_adc : Int
  nxp_btn : Int
deriving DecidableEq

/-- `"stm32"` with its quotes — the tag `uart_irq_handler` requires via `strstr`. -/
def stm32Tag : List Nat := [34, 115, 116, 109, 51, 50, 34]

/-- The parse step `uart_irq_handler` runs on a completed line: only a line
whose first byte is `{` and that contains `"stm32"` updates the two STM32
fields (each getter falls back to the field's current value). -/
def hub_uart_line_step (st : HubData) (line : List Nat) : HubData :=
  if line.head? = some 123 ∧ hasSub line stm32Tag = true then
    { st with
      stm32_temp_x10 := json_get_fixed1 line tempKey st.stm32_temp_x10,
      stm32_vref := json_get_int line vrefKey st.stm32_vref }
  else st

/-- `"esp32_heap"` as bytes. -/
def heapKey : List Nat := [101, 115, 112, 51, 50, 95, 104, 101, 97, 112]

/-- `"esp32_uptime"` as bytes. -/
def uptimeKey : List Nat := [101, 115, 112, 51, 50, 95, 117, 112, 116, 105, 109, 101]

/-- `"nxp_adc"` as bytes. -/
def adcKey : List Nat := [110, 120, 112, 95, 97, 100, 99]

/-- `"nxp_btn"` as bytes. -/
def btnKey : List Nat := [110, 120, 112, 95, 98, 116, 110]

/-- `ble_notify_cb`'s state update: the payload is truncated to 255 bytes
(`memcpy` into `char buf[256]` plus NUL), then the four ESP32/NXP fields are
re-read with the current value as fallback.  The STM32 fields are untouched. -/
def ble_notify_cb (st : HubData) (payload : List Nat) : HubData :=
  let buf := payload.take 255
  { st with
    esp32_heap := json_get_int buf heapKey st.esp32_heap,
    esp32_uptime := json_get_int buf uptimeKey st.esp32_uptime,
    nxp_adc := json_get_int buf adcKey st.nxp_adc,
    nxp_btn := json_get_int buf btnKey st.nxp_btn }

/- ===================================================================
   ESP32-C6 BLE gateway: shared nxp_data buffer and its writer
   (esp32c6-ble-gateway/main/main.c)
   =================================================================== -/

/-- The gateway's shared state: the latest MCXN947 line (`char nxp_data[256]`). -/
structure GwData where
  nxp_data : List Nat
deriving DecidableEq

/-- `"node"` with its quotes — the tag `uart_rx_task` requires via `strstr`. -/
def nodeTag : List Nat := [34, 110, 111, 100, 101, 34]

/-- Initial value of `nxp_data`: `{"adc0":0,"btn_sw2":0,"btn_sw3":0}`. -/
def gw_nxp_default : List Nat :=
  [123, 34, 97, 100, 99, 48, 34, 58, 48, 44, 34, 98, 116, 110, 95, 115, 119, 50,
   34, 58, 48, 44, 34, 98, 116, 110, 95, 115, 119, 51, 34, 58, 48, 125]

/-- The parse step `uart_rx_task` runs on a completed line: only a line whose
first byte is `{` and that contains `"node"` is `strncpy`ed (truncated to 255
bytes) into `nxp_data`. -/
def gw_uart_line_step (st : GwData) (line : List Nat) : GwData :=
  if line.head? = some 123 ∧ hasSub line nodeTag = true then
    { nxp_data := line.take 255 }
  else st

/-- C3 (amended): a completed UART line updates the receiver's shared state
only when it passes the receiver's shallow schema check — first byte `{` and
substring `"stm32"` (hub) resp. `"node"` (gateway).  Every other line leaves
the state exactly unchanged; a passing line on the gateway replaces
`nxp_data` with the line truncated to 255 bytes. -/
theorem uart_line_schema_guard (hst : HubData) (gst : GwData) (line : List Nat) :
    (¬(line.head? = some 123 ∧ hasSub line stm32Tag = true) →
      hub_uart_line_step hst line = hst) ∧
    (¬(line.head? = some 123 ∧ hasSub line nodeTag = true) →
      gw_uart_line_step gst line = gst) ∧
    ((line.head? = some 123 ∧ hasSub line nodeTag = true) →
      (gw_uart_line_step gst line).nxp_data = line.take 255) ∧
    ((line.head? = some 123 ∧ hasSub line stm32Tag = true) →
      (hub_uart_line_step hst line).stm32_temp_x10
        = json_get_fixed1 line tempKey hst.stm32_temp_x10) := by
  refine ⟨?_, ?_, ?_, ?_⟩ <;> intro h <;>
    simp [hub_uart_line_step, gw_uart_line_step, h]

/-- C3 counterexample: the line `hi` leaves the gateway state unchanged (it
would have replaced `nxp_data` had it been copied), and a line that carries
`"temp_c":9.9` but no leading `{` leaves the hub state unchanged even though
its parse value (99) differs from the stored one (0) — so "every complete
line updates the receiver's shared sensor state, regardless of the line's
content" is false. -/
theorem uart_line_schema_guard_counterexample :
    gw_uart_line_step ⟨gw_nxp_default⟩ [104, 105] = ⟨gw_nxp_default⟩ ∧
    (gw_nxp_default = [104, 105] → False) ∧
    hub_uart_line_step ⟨0, 0, 0, 0, 0, 0⟩ (searchPat tempKey ++ [57, 46, 57])
      = ⟨0, 0, 0, 0, 0, 0⟩ ∧
    json_get_fixed1 (searchPat tempKey ++ [57, 46, 57]) tempKey 0 = 99 := by
  refine ⟨by decide, by decide, by decide, by decide⟩

/-- C4: a BLE notification updates only the four ESP32/NXP fields whose key
occurs in the payload: any field whose key name does not occur anywhere in
the payload keeps its previous value (the getter is called with the current
value as fallback), and the two STM32 fields are never modified. -/
theorem ble_notify_cb_frame (payload : List Nat) (st : HubData) :
    (hasSub payload heapKey = false →
      (ble_notify_cb st payload).esp32_heap = st.esp32_heap) ∧
    (hasSub payload uptimeKey = false →
      (ble_notify_cb st payload).esp32_uptime = st.esp32_uptime) ∧
    (hasSub payload adcKey = false →
      (ble_notify_cb st payload).nxp_adc = st.nxp_adc) ∧
    (hasSub payload btnKey = false →
      (ble_notify_cb st payload).nxp_btn = st.nxp_btn) ∧
    (ble_notify_cb st payload).stm32_temp_x10 = st.stm32_temp_x10 ∧
    (ble_notify_cb st payload).stm32_vref = st.stm32_vref := by
  have absent : ∀ k : List Nat, hasSub payload k = false →
      hasSub (payload.take 255) (searchPat k) = false := by
    intro k hk
    cases hb : hasSub (payload.take 255) (searchPat k) with
    | false => rfl
    | true =>
      exact absurd (hasSub_take _ _ _ (hasSub_of_searchPat _ _ hb)) (by simp [hk])
  refine ⟨?_, ?_, ?_, ?_, ?_, ?_⟩ <;>
    first
      | (intro h
         simp [ble_notify_cb, json_get_int_no_key _ _ _ (absent _ h)])
      | simp [ble_notify_cb]

/- ===================================================================
   STM32L4 sensor node main loop (stm32l4-sensor-node/src/main.c)
   =================================================================== -/

/-- `read_adc_channel`: `-1` when `adc_read` fails, else the sample the
driver stored in `adc_buf[0]` (a 12-bit conversion result). -/
def read_adc_channel (res : Option Int) : Int :=
  match res with
  | none => -1
  | some v => v

/-- `temp_mv = raw_temp * ADC_VREF_MV / (1 << ADC_RESOLUTION)` (C `/` truncates). -/
def temp_mv_of (raw : Int) : Int := Int.tdiv (raw * 3300) 4096

/-- `temp_c_x10 = 250 + (7600 - temp_mv * 10) / 25`. -/
def temp_c_x10_of (raw : Int) : Int := 250 + Int.tdiv (7600 - temp_mv_of raw * 10) 25

/-- `vref_mv = raw_vref * ADC_VREF_MV / (1 << ADC_RESOLUTION)`. -/
def vref_mv_of (raw : Int) : Int := Int.tdiv (raw * 3300) 4096

/-- One iteration of the sensor node's `while (1)` loop, given the outcomes of
the two `adc_read` calls: if either reading is negative the iteration sends
nothing (`k_msleep; continue`), otherwise it converts and sends the JSON line. -/
def sensorIteration (rT rV : Option Int) : Option (List Nat) :=
  let raw_temp := read_adc_channel rT
  let raw_vref := read_adc_channel rV
  if raw_temp < 0 ∨ raw_vref < 0 then none
  else some (sensorJsonLine (temp_c_x10_of raw_temp) (vref_mv_of raw_vref))

/-- C5: an iteration of the sensor loop emits a JSON line on the data UART if
and only if both ADC reads succeed; on any read error it sends no bytes and
performs no conversion (ADC samples are nonnegative 12-bit values). -/
theorem sensor_iteration_error_handling (rT rV : Option Int)
    (hT : ∀ x, rT = some x → 0 ≤ x) (hV : ∀ x, rV = some x → 0 ≤ x) :
    (sensorIteration rT rV).isSome = true ↔ (rT.isSome = true ∧ rV.isSome = true) := by
  cases rT with
  | none => simp [sensorIteration, read_adc_channel]
  | some x =>
    cases rV with
    | none => simp [sensorIteration, read_adc_channel]
    | some y =>
      have hx := hT x rfl
      have hy := hV y rfl
      have hcond : ¬(x < 0 ∨ y < 0) := by omega
      simp only [sensorIteration, read_adc_channel, if_neg hcond, Option.isSome_some]
      simp

/-- C5 witness: with both reads succeeding (samples 2000 and 1500) the
iteration emits a line. -/
theorem sensor_iteration_error_handling_witness :
    (sensorIteration (some 2000) (some 1500)).isSome = true :=
  (sensor_iteration_error_handling (some 2000) (some 1500)
    (by intro x hx; injection hx with hx; omega)
    (by intro x hx; injection hx with hx; omega)).mpr ⟨rfl, rfl⟩

/- ===================================================================
   DWT cycle profiler (stm32n6-ml-bench/src/dwt_profiler.h)
   =================================================================== -/

/-- `dwt_stop(start)` = `DWT_CYCCNT - start` in uint32 arithmetic, for a
current counter value `cyccnt` (both below `2^32`). -/
def dwt_stop (cyccnt start : Nat) : Nat := (cyccnt + 2 ^ 32 - start) % 2 ^ 32

/-- `dwt_cycles_to_us` = `(uint32)((uint64)cycles * 1000000ULL / cpu_freq_hz)`:
the product wraps at `2^64`, the quotient is truncated to uint32. -/
def dwt_cycles_to_us (cycles cpu_freq_hz : Nat) : Nat :=
  (cycles * 1000000 % 2 ^ 64 / cpu_freq_hz) % 2 ^ 32

/-- C6 (amended): for uint32 inputs, `dwt_stop start` returns
`(cyccnt - start) mod 2^32` and the 64-bit product `cycles * 1000000` never
overflows; `dwt_cycles_to_us` equals `floor(cycles * 1000000 / cpu_freq_hz)`
whenever that quotient fits in uint32 — the added fit condition is forced:
the `(uint32)` cast truncates larger quotients (see the counterexample). -/
theorem dwt_cycle_arithmetic (c s f : Nat)
    (hc : c < 2 ^ 32) (hs : s < 2 ^ 32) (_hf : 0 < f) :
    ((dwt_stop c s : Int) = ((c : Int) - (s : Int)) % (2 ^ 32 : Int)) ∧
    (c * 1000000 < 2 ^ 64) ∧
    (c * 1000000 / f < 2 ^ 32 → dwt_cycles_to_us c f = c * 1000000 / f) := by
  have hprod : c * 1000000 < 2 ^ 64 := by
    have h1 : c * 1000000 < 2 ^ 32 * 1000000 := by
      exact Nat.mul_lt_mul_of_lt_of_le hc (le_refl 1000000) (by norm_num)
    calc c * 1000000 < 2 ^ 32 * 1000000 := h1
      _ ≤ 2 ^ 64 := by norm_num
  refine ⟨?_, hprod, ?_⟩
  · unfold dwt_stop
    omega
  · intro hfit
    unfold dwt_cycles_to_us
    rw [Nat.mod_eq_of_lt hprod, Nat.mod_eq_of_lt hfit]

/-- C6 witness: at `cyccnt = 5`, `start = 10` (counter wrapped) and a
64 MHz clock the equalities hold. -/
theorem dwt_cycle_arithmetic_witness :
    ((dwt_stop 5 10 : Int) = ((5 : Int) - (10 : Int)) % (2 ^ 32 : Int)) ∧
    (5 * 1000000 < 2 ^ 64) ∧
    (5 * 1000000 / 64000000 < 2 ^ 32 → dwt_cycles_to_us 5 64000000 = 5 * 1000000 / 64000000) :=
  dwt_cycle_arithmetic 5 10 64000000 (by norm_num) (by norm_num) (by norm_num)

/-- C6 counterexample: at `cycles = 2^32 - 1` and `cpu_freq_hz = 1` the true
quotient `4294967295000000` does not fit in uint32, so `dwt_cycles_to_us`
(which truncates it mod `2^32`) differs from `floor(cycles * 1000000 / f)`:
the claim's unconditional equality is false. -/
theorem dwt_cycles_to_us_counterexample :
    dwt_cycles_to_us 4294967295 1 ≠ 4294967295 * 1000000 / 1 := by
  decide

/- ===================================================================
   RTT binary blast loop (nrf5340-rtt-binary-blast/src/main.c)
   =================================================================== -/

/-- `TX_CHUNK_BYTES = TX_CHUNK_SAMPLES * sizeof(int16_t)`. -/
def TX_CHUNK_BYTES : Nat := 512 * 2

/-- The three uint32 counters of the blast loop. -/
structure BlastStats where
  total_bytes : Nat
  total_dropped : Nat
  writes : Nat
deriving DecidableEq

/-- One iteration's counter update, given the `written` value returned by
`SEGGER_RTT_Write` (uint32 arithmetic): a full write counts all bytes sent;
a short write counts `written` sent and `TX_CHUNK_BYTES - written` dropped. -/
def blastStep (st : BlastStats) (written : Nat) : BlastStats :=
  if written = TX_CHUNK_BYTES then
    { st with
      total_bytes := (st.total_bytes + written) % 2 ^ 32,
      writes := (st.writes + 1) % 2 ^ 32 }
  else
    { st with
      total_dropped := (st.total_dropped + (TX_CHUNK_BYTES - written)) % 2 ^ 32,
      total_bytes := (st.total_bytes + written) % 2 ^ 32,
      writes := (st.writes + 1) % 2 ^ 32 }

/-- The blast loop's counters after a sequence of `SEGGER_RTT_Write` returns,
starting from the zero-initialised counters. -/
def blastRun (ws : List Nat) : BlastStats := ws.foldl blastStep ⟨0, 0, 0⟩

/-- The byte-accounting invariant (uint32 arithmetic). -/
def BlastInv (st : BlastStats) : Prop :=
  st.total_bytes < 2 ^ 32 ∧ st.total_dropped < 2 ^ 32 ∧ st.writes < 2 ^ 32 ∧
    (st.total_bytes + st.total_dropped) % 2 ^ 32 = st.writes * TX_CHUNK_BYTES % 2 ^ 32

lemma blastStep_inv (st : BlastStats) (w : Nat) (hw : w ≤ TX_CHUNK_BYTES)
    (h : BlastInv st) : BlastInv (blastStep st w) := by
  obtain ⟨h1, h2, h3, h4⟩ := h
  unfold BlastInv blastStep TX_CHUNK_BYTES at *
  by_cases hfull : w = 512 * 2 <;> simp [hfull] <;> omega

lemma blastRun_inv (ws : List Nat) : ∀ st, (∀ w ∈ ws, w ≤ TX_CHUNK_BYTES) →
    BlastInv st → BlastInv (ws.foldl blastStep st) := by
  induction ws with
  | nil => intro st _ h; exact h
  | cons w t ih =>
    intro st hws h
    exact ih _ (fun x hx => hws x (by simp [hx]))
      (blastStep_inv st w (hws w (by simp)) h)

/-- C10: after any sequence of `SEGGER_RTT_Write` return values (each at most
`TX_CHUNK_BYTES`), the blast loop's counters satisfy
`total_bytes + total_dropped = writes * TX_CHUNK_BYTES` in uint32 arithmetic:
every byte of every attempted chunk is counted exactly once as sent or
dropped. -/
theorem blast_byte_accounting (ws : List Nat)
    (h : ∀ w ∈ ws, w ≤ TX_CHUNK_BYTES) :
    ((blastRun ws).total_bytes + (blastRun ws).total_dropped) % 2 ^ 32
      = (blastRun ws).writes * TX_CHUNK_BYTES % 2 ^ 32 :=
  (blastRun_inv ws ⟨0, 0, 0⟩ h ⟨by norm_num, by norm_num, by norm_num, by norm_num⟩).2.2.2

/-- C10 witness: one full write then a short write of 1000 bytes. -/
theorem blast_byte_accounting_witness :
    ((blastRun [1024, 1000]).total_bytes + (blastRun [1024, 1000]).total_dropped) % 2 ^ 32
      = (blastRun [1024, 1000]).writes * TX_CHUNK_BYTES % 2 ^ 32 :=
  blast_byte_accounting [1024, 1000] (by decide)

/- ===================================================================
   Hub UART line assembler (nrf5340-ble-hub/src/main.c, uart_irq_handler)
   =================================================================== -/

/-- One received byte's effect on the line buffer (`uart_line`/`uart_pos`,
modelled as the list of the `uart_pos` stored bytes): a separator with a
nonempty buffer NUL-terminates and hands the line to the parser (the emitted
value) and resets `uart_pos`; a separator on an empty buffer does nothing;
any other byte is appended only while `uart_pos < UART_BUF_SIZE - 1 = 255`. -/
def uartStep (buf : List Nat) (c : Nat) : List Nat × Option (List Nat) :=
  if c = 10 ∨ c = 13 then
    if 0 < buf.length then ([], some buf) else (buf, none)
  else if buf.length < 255 then (buf ++ [c], none) else (buf, none)

/-- Feeding a byte sequence through the assembler: final buffer and the list
of lines handed to the parser, in order. -/
def uartRun (buf : List Nat) : List Nat → List Nat × List (List Nat)
  | [] => (buf, [])
  | c :: cs =>
    let s := uartStep buf c
    let r := uartRun s.1 cs
    (r.1, s.2.toList ++ r.2)

lemma uartStep_len (buf : List Nat) (c : Nat) (h : buf.length ≤ 255) :
    (uartStep buf c).1.length ≤ 255 := by
  unfold uartStep
  by_cases hsep : c = 10 ∨ c = 13
  · by_cases hne : 0 < buf.length <;> simp [hsep, hne, h]
  · by_cases hlt : buf.length < 255 <;> simp [hsep, hlt, h]
    omega

lemma uartRun_inv (input : List Nat) : ∀ buf, buf.length ≤ 255 →
    (uartRun buf input).1.length ≤ 255 ∧
    ∀ e ∈ (uartRun buf input).2, e ≠ [] ∧ e.length ≤ 255 := by
  induction input with
  | nil =>
    intro buf h
    exact ⟨h, by simp [uartRun]⟩
  | cons c cs ih =>
    intro buf h
    obtain ⟨ih1, ih2⟩ := ih (uartStep buf c).1 (uartStep_len buf c h)
    refine ⟨ih1, ?_⟩
    intro e he
    simp only [uartRun, List.mem_append] at he
    rcases he with he | he
    · -- e was emitted by this step: only the separator branch emits
      unfold uartStep at he
      by_cases hsep : c = 10 ∨ c = 13
      · by_cases hne : 0 < buf.length
        · simp [hsep, hne] at he
          subst he
          constructor
          · intro hnil
            rw [hnil] at hne
            simp at hne
          · exact h
        · simp [hsep, hne] at he
      · by_cases hlt : buf.length < 255 <;> simp [hsep, hlt] at he
    · exact ih2 e he

lemma uartRun_no_sep (seg : List Nat) : ∀ buf, buf.length ≤ 255 →
    (∀ c ∈ seg, ¬(c = 10 ∨ c = 13)) →
    uartRun buf (seg ++ [10])
      = ([], if buf ++ seg = [] then [] else [(buf ++ seg).take 255]) := by
  induction seg with
  | nil =>
    intro buf hlen _
    by_cases hne : 0 < buf.length
    · have hb : buf ≠ [] := by
        intro h
        rw [h] at hne
        simp at hne
      simp [uartRun, uartStep, hne, hb, List.take_of_length_le hlen]
    · have hb : buf = [] := by
        cases buf with
        | nil => rfl
        | cons x xs => simp at hne
      simp [uartRun, uartStep, hb]
  | cons c cs ih =>
    intro buf hlen hsep
    have hc : ¬(c = 10 ∨ c = 13) := hsep c (by simp)
    have hcs : ∀ x ∈ cs, ¬(x = 10 ∨ x = 13) := fun x hx => hsep x (by simp [hx])
    by_cases hlt : buf.length < 255
    · have hstep : uartStep buf c = (buf ++ [c], none) := by
        simp [uartStep, hc, hlt]
      simp only [List.cons_append, uartRun, hstep, Option.toList_none, List.nil_append,
        List.append_eq]
      rw [ih (buf ++ [c]) (by simp; omega) hcs]
      simp [List.append_assoc]
    · have h255 : buf.length = 255 := by omega
      have hstep : uartStep buf c = (buf, none) := by
        simp [uartStep, hc, hlt]
      simp only [List.cons_append, uartRun, hstep, Option.toList_none, List.nil_append,
        List.append_eq]
      rw [ih buf hlen hcs]
      have hbne : buf ++ cs ≠ [] := by
        intro h
        have := congrArg List.length h
        simp [h255] at this
      have hbne2 : buf ++ c :: cs ≠ [] := by
        intro h
        have := congrArg List.length h
        simp [h255] at this
      have htake : (buf ++ cs).take 255 = (buf ++ c :: cs).take 255 := by
        rw [List.take_append_eq_append_take, List.take_append_eq_append_take, h255]
        simp
      simp [hbne, hbne2, htake]

/-- C8: the hub's line assembler never writes outside `uart_line`: from any
reachable buffer (length at most 255) the buffer length — the write index
`uart_pos` — stays at most 255 for every input byte sequence, every line
handed to the parser is nonempty and at most 255 bytes (so the NUL terminator
at `uart_line[uart_pos]` is in bounds and empty lines trigger no parse), and a
newline-terminated line with no embedded separators is delivered as exactly
its first 255 bytes — bytes beyond 255 are silently discarded but the
truncated head is still parsed at the newline. -/
theorem uart_line_assembler_safe (input seg : List Nat) :
    ((uartRun [] input).1.length ≤ 255 ∧
      ∀ e ∈ (uartRun [] input).2, e ≠ [] ∧ e.length ≤ 255) ∧
    ((∀ c ∈ seg, ¬(c = 10 ∨ c = 13)) →
      uartRun [] (seg ++ [10])
        = ([], if seg = [] then [] else [seg.take 255])) := by
  constructor
  · exact uartRun_inv input [] (by simp)
  · intro hsep
    rw [uartRun_no_sep seg [] (by simp) hsep]
    simp

/- ===================================================================
   Hub BLE advertisement scanner (nrf5340-ble-hub/src/main.c, scan_recv_cb)
   =================================================================== -/

/-- `"EAB-ESP32C6"` as bytes. -/
def eabName : List Nat := [69, 65, 66, 45, 69, 83, 80, 51, 50, 67, 54]

/-- `memcmp(a, b, n) == 0`, partial: `none` models a read past either
buffer's end. -/
def memcmpEq (a b : List Nat) (n : Nat) : Option Bool :=
  if n ≤ a.length ∧ n ≤ b.length then some (a.take n == b.take n) else none

/-- The advertisement-parsing loop of `scan_recv_cb`, on the remaining buffer
`lenB :: ty :: rest2` (so `ad->len > 1`), carrying `found_name` and the bytes
copied into `name_buf`.  Result: `some (found_name, name_buf, connect)`;
`none` models any out-of-bounds pull/memcpy/memcmp.  `fuel` only bounds the
recursion; `fuel > ad->len` never runs out (each iteration consumes at least
two bytes). -/
def scanLoopF : Nat → List Nat → Bool → List Nat → Option (Bool × List Nat × Bool)
  | 0, _, _, _ => none
  | fuel + 1, lenB :: ty :: rest2, found, nb =>
    -- uint8_t len = net_buf_simple_pull_u8(ad); break on len == 0 or len > ad->len
    if lenB = 0 ∨ lenB > rest2.length + 1 then some (found, nb, false)
    else
      -- uint8_t type = net_buf_simple_pull_u8(ad); len--;
      let len1 := lenB - 1
      if ty = 9 ∨ ty = 8 then
        -- copy_len = min(len, 31); memcpy(name_buf, ad->data, copy_len)
        if min len1 31 ≤ rest2.length then
          let nb1 := rest2.take (min len1 31)
          if len1 = 11 then
            match memcmpEq rest2 eabName 11 with
            | none => none
            | some true => some (true, nb1, true)      -- connect and return
            | some false =>
              if len1 > rest2.length then some (true, nb1, false)
              else scanLoopF fuel (rest2.drop len1) true nb1
          else
            if len1 > rest2.length then some (true, nb1, false)
            else scanLoopF fuel (rest2.drop len1) true nb1
        else none
      else
        if len1 > rest2.length then some (found, nb, false)
        else scanLoopF fuel (rest2.drop len1) found nb
  | _ + 1, _, found, nb => some (found, nb, false)    -- while (ad->len > 1) exits

/-- `scan_recv_cb`'s loop on a whole advertisement, `name_buf` initially
zeroed (no copied bytes) and `found_name = false`. -/
def scan_recv (ad : List Nat) : Option (Bool × List Nat × Bool) :=
  scanLoopF (ad.length + 1) ad false []

lemma scanLoopF_total : ∀ (fuel : Nat) (d : List Nat) (found : Bool) (nb : List Nat),
    d.length < fuel → nb.length ≤ 31 →
    ∃ r, scanLoopF fuel d found nb = some r ∧ r.2.1.length ≤ 31 := by
  intro fuel
  induction fuel with
  | zero =>
    intro d _ _ h _
    omega
  | succ f ih =>
    intro d found nb hlen hnb
    match d with
    | [] => exact ⟨(found, nb, false), rfl, hnb⟩
    | [x] => exact ⟨(found, nb, false), rfl, hnb⟩
    | lenB :: ty :: rest2 =>
      simp only [List.length_cons] at hlen
      by_cases h0 : lenB = 0 ∨ lenB > rest2.length + 1
      · exact ⟨(found, nb, false), by simp [scanLoopF, h0], hnb⟩
      · have hb : 1 ≤ lenB ∧ lenB ≤ rest2.length + 1 := by
          push_neg at h0
          omega
        have hlen1 : lenB - 1 ≤ rest2.length := by omega
        have hmin : min (lenB - 1) 31 ≤ rest2.length := by omega
        have hnb1 : (rest2.take (min (lenB - 1) 31)).length ≤ 31 := by
          rw [List.length_take]
          omega
        have hrec : (rest2.drop (lenB - 1)).length < f := by
          rw [List.length_drop]
          omega
        have hngt : ¬(lenB - 1 > rest2.length) := by omega
        by_cases hty : ty = 9 ∨ ty = 8
        · by_cases h11 : lenB - 1 = 11
          · have hcmp : memcmpEq rest2 eabName 11
                = some (rest2.take 11 == eabName.take 11) := by
              unfold memcmpEq
              rw [if_pos ⟨by omega, by norm_num [eabName]⟩]
            have h11le : 11 ≤ rest2.length := by omega
            have hnlt : ¬rest2.length < 11 := by omega
            cases hres : rest2.take 11 == eabName.take 11 with
            | true =>
              have hstep : scanLoopF (f + 1) (lenB :: ty :: rest2) found nb
                  = some (true, rest2.take (min (lenB - 1) 31), true) := by
                simp [scanLoopF, h0, hty, h11, hmin, hcmp, hres, h11le]
              exact ⟨(true, rest2.take (min (lenB - 1) 31), true), hstep, hnb1⟩
            | false =>
              obtain ⟨r, hr, hr31⟩ := ih (rest2.drop (lenB - 1)) true
                (rest2.take (min (lenB - 1) 31)) hrec hnb1
              have hstep : scanLoopF (f + 1) (lenB :: ty :: rest2) found nb
                  = scanLoopF f (rest2.drop (lenB - 1)) true
                      (rest2.take (min (lenB - 1) 31)) := by
                simp [scanLoopF, h0, hty, h11, hmin, hcmp, hres, hngt, h11le, hnlt]
              exact ⟨r, hstep.trans hr, hr31⟩
          · obtain ⟨r, hr, hr31⟩ := ih (rest2.drop (lenB - 1)) true
              (rest2.take (min (lenB - 1) 31)) hrec hnb1
            have hstep : scanLoopF (f + 1) (lenB :: ty :: rest2) found nb
                = scanLoopF f (rest2.drop (lenB - 1)) true
                    (rest2.take (min (lenB - 1) 31)) := by
              simp [scanLoopF, h0, hty, h11, hmin, hngt]
            exact ⟨r, hstep.trans hr, hr31⟩
        · obtain ⟨r, hr, hr31⟩ := ih (rest2.drop (lenB - 1)) found nb hrec hnb
          have hstep : scanLoopF (f + 1) (lenB :: ty :: rest2) found nb
              = scanLoopF f (rest2.drop (lenB - 1)) found nb := by
            simp [scanLoopF, h0, hty, hngt]
          exact ⟨r, hstep.trans hr, hr31⟩

/-- C9: the hub's advertisement parser never reads outside the advertisement
buffer — for every advertisement the loop completes without any
out-of-bounds pull, `memcmp` or `memcpy` (no `none` outcome), and the name
copied into `name_buf` for logging is at most 31 bytes (so its NUL
terminator stays inside `char name_buf[32]`). -/
theorem scan_recv_in_bounds (ad : List Nat) :
    ∃ r, scan_recv ad = some r ∧ r.2.1.length ≤ 31 :=
  scanLoopF_total (ad.length + 1) ad false [] (by omega) (by simp)

/- ===================================================================
   Fault-injection shell commands
   (nrf5340-fault-demo/src/main.c and frdm-mcxn947-fault-demo/src/main.c,
   identical command handlers)
   =================================================================== -/

/-- The faulting operation a handler performs after its `shell_print`. -/
inductive FaultOp where
  | memRead : Nat → FaultOp           -- read through a pointer with this value
  | divide : Int → Int → FaultOp      -- evaluate an integer division
  | callRecurse : Int → FaultOp       -- call overflow_recurse at this depth
  | asmUdf : FaultOp                  -- execute UDF #0
deriving DecidableEq

/-- `cmd_fault_null`: `volatile int *p = NULL; fault_sink = *p;` — a read
through a pointer whose value is 0. -/
def cmd_fault_null : FaultOp := FaultOp.memRead 0

/-- `cmd_fault_divzero`: `volatile int a = 42; volatile int b = 0; a / b`. -/
def cmd_fault_divzero : FaultOp := FaultOp.divide 42 0

/-- `cmd_fault_overflow`: `overflow_recurse(0)`. -/
def cmd_fault_overflow : FaultOp := FaultOp.callRecurse 0

/-- `cmd_fault_undef`: `__asm volatile (".hword 0xDE00")`. -/
def cmd_fault_undef : FaultOp := FaultOp.asmUdf

/-- The `SHELL_STATIC_SUBCMD_SET_CREATE(fault_cmds, ...)` registration table
(the `unaligned` and `bus` entries read a misaligned stack address resp. an
unmapped peripheral address; only the nRF5340 bus address is listed here). -/
def fault_cmds : List (String × FaultOp) :=
  [("null", cmd_fault_null),
   ("divzero", cmd_fault_divzero),
   ("unaligned", FaultOp.memRead 1),
   ("undef", cmd_fault_undef),
   ("overflow", cmd_fault_overflow),
   ("bus", FaultOp.memRead 0x50FF0000)]

/-- C integer division as a partial function: division by zero has no value
(it traps on these Cortex-M33 targets with DIV_0_TRP set / faults). -/
def cDivTotal (a b : Int) : Option Int :=
  if b = 0 then none else some (a.tdiv b)

/-- `overflow_recurse depth` returns only if `overflow_recurse (depth + 1)`
returns first: the recursion `{ volatile char buf[256]; memset(buf, depth,
256); overflow_recurse(depth + 1); }` has no base case. -/
inductive OverflowRecurseReturns : Int → Prop where
  | ret : ∀ d, OverflowRecurseReturns (d + 1) → OverflowRecurseReturns d

lemma overflow_recurse_diverges (d : Int) : ¬OverflowRecurseReturns d := by
  intro h
  induction h with
  | ret d _ ih => exact ih

/-- C2: each fault command performs exactly the faulting operation it is
registered for — `fault null` reads through a pointer whose value is 0,
`fault divzero` evaluates `42 / 0` (which has no defined result), and
`fault overflow` calls `overflow_recurse`, whose recursion has no base case
and therefore never returns from any depth. -/
theorem fault_commands_fault (d : Int) :
    fault_cmds.lookup "null" = some (FaultOp.memRead 0) ∧
    fault_cmds.lookup "divzero" = some (FaultOp.divide 42 0) ∧
    fault_cmds.lookup "overflow" = some (FaultOp.callRecurse 0) ∧
    cDivTotal 42 0 = none ∧
    OverflowRecurseReturns d = False := by
  refine ⟨rfl, rfl, rfl, rfl, ?_⟩
  simp only [eq_iff_iff, iff_false]
  exact overflow_recurse_diverges d

/- ===================================================================
   Lock discipline around the shared state (C7)
   =================================================================== -/

/-- Events of a thread or callback body, in source order: mutex/semaphore
take, give, or one access (read or write) to the example's shared state. -/
inductive LockEv where
  | take : LockEv
  | give : LockEv
  | touch : LockEv
deriving DecidableEq

/-- `lockedOk depth evs`: every `touch` happens while the lock is held, every
`give` matches an earlier `take`, and the body ends with the lock released. -/
def lockedOk : Nat → List LockEv → Bool
  | d, [] => d = 0
  | d, LockEv.take :: t => lockedOk (d + 1) t
  | d, LockEv.give :: t => decide (0 < d) && lockedOk (d - 1) t
  | d, LockEv.touch :: t => decide (0 < d) && lockedOk d t

/-- Hub `uart_irq_handler` parse section: `k_mutex_lock`; read + write
`stm32_temp_x10`, read + write `stm32_vref`; `k_mutex_unlock`. -/
def hub_uart_events : List LockEv :=
  [.take, .touch, .touch, .touch, .touch, .give]

/-- Hub `ble_notify_cb`: `k_mutex_lock`; read + write each of the four
ESP32/NXP fields; `k_mutex_unlock`. -/
def hub_ble_notify_events : List LockEv :=
  [.take, .touch, .touch, .touch, .touch, .touch, .touch, .touch, .touch, .give]

/-- Hub `aggregation_thread` loop body: `k_mutex_lock`; read the six fields
into locals; `k_mutex_unlock` (the `LOG_INF` uses only the locals). -/
def hub_aggregation_events : List LockEv :=
  [.take, .touch, .touch, .touch, .touch, .touch, .touch, .give]

/-- Gateway `uart_rx_task` line update: `xSemaphoreTake`; `strncpy` into
`nxp_data` and NUL-terminate it; `xSemaphoreGive`. -/
def gw_uart_rx_events : List LockEv :=
  [.take, .touch, .touch, .give]

/-- Gateway `gatt_access_cb` read path: `xSemaphoreTake`; two `json_get_int`
reads of `nxp_data`; `xSemaphoreGive`. -/
def gw_gatt_access_events : List LockEv :=
  [.take, .touch, .touch, .give]

/-- Gateway `ble_notify_task` loop body: `xSemaphoreTake`; two `json_get_int`
reads of `nxp_data`; `xSemaphoreGive`. -/
def gw_ble_notify_events : List LockEv :=
  [.take, .touch, .touch, .give]

/-- C7: in every thread and callback that touches the shared state (the hub's
six aggregated fields; the gateway's `nxp_data`), every access happens
between the take and the matching give of that example's single
mutex/semaphore, and each body releases the lock it took. -/
theorem shared_state_lock_discipline :
    lockedOk 0 hub_uart_events = true ∧
    lockedOk 0 hub_ble_notify_events = true ∧
    lockedOk 0 hub_aggregation_events = true ∧
    lockedOk 0 gw_uart_rx_events = true ∧
    lockedOk 0 gw_gatt_access_events = true ∧
    lockedOk 0 gw_ble_notify_events = true := by
  decide
